import Mathlib

/-!
Verification of the day-2 "game records" parser and aggregators
(`src/day2.rs`) against its natural-language specification.

Embedding conventions:
* Rust `&str` slices are modelled as `List Char`; all nom parsers here only
  ever return suffixes of their input, which the model reflects.
* A nom parser `Fn(&str) -> IResult<&str, O>` is modelled as
  `List Char → Option (List Char × O)`; `none` stands for `Err(Err::Error _)`.
  None of the combinators used by the source can produce `Err::Failure` or
  `Err::Incomplete` (all are `complete` parsers without `cut`), so a single
  failure case is faithful.
* Machine integers (`u32`, `u64`) are modelled as `Nat` with explicit
  `% 2 ^ 32` / `% 2 ^ 64` wherever the source performs arithmetic that can
  overflow (release-mode wrapping semantics).
-/

namespace Day2

/-- Result of a nom parser: `none` on error, otherwise the remaining input
and the produced value. -/
def Parser (α : Type) : Type := List Char → Option (List Char × α)

/-- `struct Rgb { red: u32, green: u32, blue: u32 }`. -/
structure Rgb where
  red : Nat
  green : Nat
  blue : Nat
deriving DecidableEq, Repr

/-- `Rgb::default()` is `(0, 0, 0)` (`#[derive(Default)]` with `u32` fields). -/
def Rgb.default : Rgb := ⟨0, 0, 0⟩

/-- `impl PartialOrd for Rgb { fn partial_cmp }`: componentwise order,
`Some(Equal)` when all components equal, `Some(Less)` when componentwise `<=`
but not equal, `None` (incomparable) otherwise. -/
def Rgb.partial_cmp (a b : Rgb) : Option Ordering :=
  if a.red ≤ b.red ∧ a.green ≤ b.green ∧ a.blue ≤ b.blue then
    if a.red = b.red ∧ a.green = b.green ∧ a.blue = b.blue then
      some Ordering.eq
    else
      some Ordering.lt
  else
    none

/-- Rust's default `PartialOrd::le`: `matches!(partial_cmp, Some(Less | Equal))`.
This is the `rgb <= &max_cubes` test used in `part1`. -/
def Rgb.le (a b : Rgb) : Bool :=
  match Rgb.partial_cmp a b with
  | some Ordering.lt => true
  | some Ordering.eq => true
  | _ => false

/-- `struct Game { id: u32, rounds: Vec<Rgb> }`. -/
structure Game where
  id : Nat
  rounds : List Rgb
deriving DecidableEq, Repr

/-- Match a literal tag against the start of the input, returning the
remainder on success (the core of nom's `tag`). -/
def tagMatch : List Char → List Char → Option (List Char)
  | [], i => some i
  | _ :: _, [] => none
  | t :: ts, c :: cs => if t = c then tagMatch ts cs else none

/-- nom `bytes::complete::tag(t)`: succeeds iff the input starts with `t`,
consuming it and returning it. -/
def tag (t : List Char) : Parser (List Char) := fun i =>
  match tagMatch t i with
  | some rest => some (rest, t)
  | none => none

/-- nom `character::complete::space0`: consumes zero or more spaces and tabs. -/
def isSpaceChar (c : Char) : Bool := c = ' ' ∨ c = '\t'

/-- `space0` always succeeds, consuming the maximal run of spaces/tabs. -/
def space0 : Parser (List Char) := fun i =>
  some (i.dropWhile isSpaceChar, i.takeWhile isSpaceChar)

/-- nom `sequence::delimited(a, b, c)`: run `a`, then `b`, then `c`,
returning `b`'s output. -/
def delimited (a : Parser α) (b : Parser β) (c : Parser γ) : Parser β := fun i =>
  match a i with
  | none => none
  | some (i1, _) =>
    match b i1 with
    | none => none
    | some (i2, o) =>
      match c i2 with
      | none => none
      | some (i3, _) => some (i3, o)

/-- `fn ws(inner)`: `delimited(space0, inner, space0)`. -/
def ws (inner : Parser α) : Parser α := delimited space0 inner space0

/-- nom `branch::alt` over two alternatives: try the first; on error try the
second. -/
def alt2 (p q : Parser α) : Parser α := fun i =>
  match p i with
  | some r => some r
  | none => q i

/-- nom `branch::alt` over three alternatives. -/
def alt3 (p q r : Parser α) : Parser α := alt2 p (alt2 q r)

/-- nom `combinator::map`. -/
def pmap (p : Parser α) (f : α → β) : Parser β := fun i =>
  match p i with
  | none => none
  | some (i1, o) => some (i1, f o)

/-- nom `combinator::map_res`: apply a fallible function to the parser's
output; its failure becomes a parse error. -/
def map_res (p : Parser α) (f : α → Option β) : Parser β := fun i =>
  match p i with
  | none => none
  | some (i1, o) =>
    match f o with
    | none => none
    | some b => some (i1, b)

/-- nom `sequence::tuple` of two parsers. -/
def tuple2 (p : Parser α) (q : Parser β) : Parser (α × β) := fun i =>
  match p i with
  | none => none
  | some (i1, a) =>
    match q i1 with
    | none => none
    | some (i2, b) => some (i2, (a, b))

/-- nom `character::complete::digit1`: one or more ASCII digits; errors when
the input does not start with a digit. -/
def digit1 : Parser (List Char) := fun i =>
  match i.takeWhile Char.isDigit with
  | [] => none
  | ds => some (i.drop ds.length, ds)

/-- Numeric value of a decimal digit string (most significant first). -/
def digitsVal (ds : List Char) : Nat :=
  ds.foldl (fun n c => n * 10 + (c.toNat - '0'.toNat)) 0

/-- Rust `str::parse::<u32>()` applied to the (digits-only) output of
`digit1`: succeeds with the value iff it fits in `u32`. -/
def u32_from_digits (ds : List Char) : Option Nat :=
  if digitsVal ds < 2 ^ 32 then some (digitsVal ds) else none

/-- `fn game_tag_parser`: `ws(tag("Game"))`. -/
def gameTagParser : Parser (List Char) := ws (tag "Game".toList)

/-- `fn colon_parser`: `tag(":")`. -/
def colonParser : Parser (List Char) := tag ":".toList

/-- `fn color_parser`: `alt((tag("red"), tag("blue"), tag("green")))`.
Note: it fails (`UnknownColor`-style error) on anything that does not start
with one of the three literals, and `tag` matches prefixes. -/
def colorParser : Parser (List Char) :=
  alt3 (tag "red".toList) (tag "blue".toList) (tag "green".toList)

/-- `fn game_id_parser`: `map_res(digit1, |s| s.parse::<u32>())`. -/
def gameIdParser : Parser Nat := map_res digit1 u32_from_digits

/-- `fn color_number_parser`: `tuple((ws(game_id_parser), ws(color_parser)))`. -/
def colorNumberParser : Parser (Nat × List Char) :=
  tuple2 (ws gameIdParser) (ws colorParser)

/-- Loop of nom's `separated_list0`/`separated_list1` after the first element
has been parsed, fuelled by the remaining input length.  Mirrors nom 7:
on separator error return the accumulated list; if the separator consumed
nothing, hard error (`ErrorKind::SeparatedList` infinite-loop guard); on
element error return the accumulated list without consuming the separator. -/
def sepLoop (sep : Parser σ) (f : Parser α) :
    Nat → List Char → List α → Option (List Char × List α)
  | 0, _, _ => none
  | fuel + 1, i, acc =>
    match sep i with
    | none => some (i, acc)
    | some (i1, _) =>
      if i1.length = i.length then
        none
      else
        match f i1 with
        | none => some (i, acc)
        | some (i2, o) => sepLoop sep f fuel i2 (acc ++ [o])

/-- nom `multi::separated_list0`: zero or more `f` separated by `sep`.
If the first element fails, succeed with the empty list. -/
def separated_list0 (sep : Parser σ) (f : Parser α) : Parser (List α) := fun i =>
  match f i with
  | none => some (i, [])
  | some (i1, o) => sepLoop sep f (i1.length + 1) i1 [o]

/-- nom `multi::separated_list1`: one or more `f` separated by `sep`.
If the first element fails, fail. -/
def separated_list1 (sep : Parser σ) (f : Parser α) : Parser (List α) := fun i =>
  match f i with
  | none => none
  | some (i1, o) => sepLoop sep f (i1.length + 1) i1 [o]

/-- The fold in `get_color_set`: accumulate each `(count, color)` pair into
the matching field of the `Rgb` accumulator (`u32` wrapping addition);
unmatched color strings fall through to `_ => ()` and are ignored. -/
def foldPair (acc : Rgb) (p : Nat × List Char) : Rgb :=
  if p.2 = "red".toList then
    { acc with red := (acc.red + p.1) % 2 ^ 32 }
  else if p.2 = "green".toList then
    { acc with green := (acc.green + p.1) % 2 ^ 32 }
  else if p.2 = "blue".toList then
    { acc with blue := (acc.blue + p.1) % 2 ^ 32 }
  else
    acc

/-- The round aggregate: `pairs.into_iter().fold(Rgb::default(), ..)`. -/
def foldPairs (pairs : List (Nat × List Char)) : Rgb :=
  pairs.foldl foldPair Rgb.default

/-- `fn get_color_set`: rounds are `set_parser`s separated by `;`, where
`set_parser` folds a comma-separated nonempty list of `(count, color)` pairs
into one `Rgb`. -/
def get_color_set : Parser (List Rgb) :=
  separated_list0 (ws (tag ";".toList))
    (pmap (separated_list1 (ws (tag ",".toList)) colorNumberParser) foldPairs)

/-- `fn newline_parser`: `alt((tag("\r\n"), tag("\n")))`. -/
def newlineParser : Parser (List Char) :=
  alt2 (tag "\r\n".toList) (tag "\n".toList)

/-- The record parser inside `games_parser`: header (`Game`, id, `:`)
followed by the round list. -/
def gameParser : Parser Game :=
  pmap
    (tuple2 (ws gameTagParser)
      (tuple2 (ws gameIdParser) (tuple2 (ws colonParser) get_color_set)))
    (fun x => Game.mk x.2.1 x.2.2.2)

/-- `fn games_parser`: records separated by newlines; on `Ok` the leftover
input is discarded (`Ok((_, games)) => Ok(games)`), on `Err` the nom error is
stringified through `anyhow`. -/
def gamesParser (input : List Char) : Except String (List Game) :=
  match separated_list0 newlineParser gameParser input with
  | some (_, games) => Except.ok games
  | none => Except.error "parse error"

/-- `fn part1`: sum (wrapping `u32`) of ids of games all of whose rounds are
`<=` the hard-coded ceiling `(12, 13, 14)` under `Rgb`'s `PartialOrd`. -/
def max_cubes : Rgb := ⟨12, 13, 14⟩

/-- The feasibility filter of `part1`, with the ceiling as a parameter
(`max_cubes` in the source): `game.rounds.iter().all(|rgb| rgb <= &c)`. -/
def gameFeasible (c : Rgb) (g : Game) : Bool :=
  g.rounds.all (fun rgb => Rgb.le rgb c)

/-- `fn part1`. -/
def part1 (input : List Game) : Nat :=
  ((input.filter (gameFeasible max_cubes)).map Game.id).foldl
    (fun a b => (a + b) % 2 ^ 32) 0

/-- The per-record fold of `part2`: componentwise maxima of the rounds
starting from `(u32::MIN, u32::MIN, u32::MIN)`. -/
def maxFold (g : Game) : Nat × Nat × Nat :=
  g.rounds.foldl
    (fun t rgb => (max t.1 rgb.red, max t.2.1 rgb.green, max t.2.2 rgb.blue))
    (0, 0, 0)

/-- `fn part2`: per record, the product of the three maxima widened to `u64`
(wrapping at `2 ^ 64`), summed (wrapping `u64`) over all records. -/
def part2 (input : List Game) : Nat :=
  (input.map (fun g =>
      let m := maxFold g
      m.1 * m.2.1 % 2 ^ 64 * m.2.2 % 2 ^ 64)).foldl
    (fun a b => (a + b) % 2 ^ 64) 0

/-- Spec-side definition ("A is within B iff every component of A is ≤ the
corresponding component of B"), for comparison with the source's
`Rgb::partial_cmp`-based `<=`. -/
def rgbWithin (a b : Rgb) : Bool :=
  a.red ≤ b.red ∧ a.green ≤ b.green ∧ a.blue ≤ b.blue

/-- Spec-side definition of Feasibility-sum: "sum of `record.id` for every
record where every round's ColorCount is within `ceiling` (component-wise ≤)". -/
def feasibilitySum (ceiling : Rgb) (records : List Game) : Nat :=
  ((records.filter (fun g => g.rounds.all (fun r => rgbWithin r ceiling))).map
    Game.id).sum

/-- Spec-side definition of a record's bounding product: "compute the
component-wise maximum of red, green, blue across all its rounds (starting
from (0,0,0) if there are no rounds), multiply the three maxima together". -/
def gamePower (g : Game) : Nat :=
  ((g.rounds.map Rgb.red).foldl max 0) * ((g.rounds.map Rgb.green).foldl max 0) *
    ((g.rounds.map Rgb.blue).foldl max 0)

/-- Spec-side definition of Bounding-product-sum: the bounding products
"summed across all records". -/
def boundingProductSum (records : List Game) : Nat :=
  (records.map gamePower).sum

/-- The five-record reference sample (the record list of `test_parse_games` /
`test_part1`). -/
def sampleGames : List Game :=
  [⟨1, [⟨4, 0, 3⟩, ⟨1, 2, 6⟩, ⟨0, 2, 0⟩]⟩,
   ⟨2, [⟨0, 2, 1⟩, ⟨1, 3, 4⟩, ⟨0, 1, 1⟩]⟩,
   ⟨3, [⟨20, 8, 6⟩, ⟨4, 13, 5⟩, ⟨1, 5, 0⟩]⟩,
   ⟨4, [⟨3, 1, 6⟩, ⟨6, 3, 0⟩, ⟨14, 3, 15⟩]⟩,
   ⟨5, [⟨6, 3, 1⟩, ⟨1, 2, 2⟩]⟩]

/-- A parser never returns more input than it was given (every nom parser in
the source returns a suffix of its input). -/
def Nonexpanding (p : Parser α) : Prop :=
  ∀ i r x, p i = some (r, x) → r.length ≤ i.length

/-- A parser that always consumes at least one character on success. -/
def StrictConsuming (p : Parser α) : Prop :=
  ∀ i r x, p i = some (r, x) → r.length < i.length

theorem tagMatch_length_le {t i r : List Char} (h : tagMatch t i = some r) :
    r.length ≤ i.length := by
  induction t generalizing i with
  | nil =>
    simp only [tagMatch, Option.some.injEq] at h
    subst h
    exact Nat.le_refl _
  | cons a ts ih =>
    cases i with
    | nil => simp [tagMatch] at h
    | cons c cs =>
      simp only [tagMatch] at h
      split at h
      · exact Nat.le_trans (ih h) (Nat.le_succ _)
      · cases h

theorem tag_nonexpanding (t : List Char) : Nonexpanding (tag t) := by
  intro i r x h
  simp only [tag] at h
  split at h
  · simp only [Option.some.injEq, Prod.mk.injEq] at h
    obtain ⟨hr, -⟩ := h
    subst hr
    exact tagMatch_length_le (by assumption)
  · cases h

theorem tag_strict {a : Char} {ts : List Char} : StrictConsuming (tag (a :: ts)) := by
  intro i r x h
  simp only [tag] at h
  split at h
  case h_1 rest heq =>
    simp only [Option.some.injEq, Prod.mk.injEq] at h
    obtain ⟨hr, -⟩ := h
    subst hr
    cases i with
    | nil => simp [tagMatch] at heq
    | cons c cs =>
      simp only [tagMatch] at heq
      split at heq
      · exact Nat.lt_succ_of_le (tagMatch_length_le heq)
      · cases heq
  case h_2 => cases h

theorem space0_nonexpanding : Nonexpanding space0 := by
  intro i r x h
  simp only [space0, Option.some.injEq, Prod.mk.injEq] at h
  obtain ⟨hr, -⟩ := h
  subst hr
  exact (List.dropWhile_sublist _).length_le

theorem delimited_nonexpanding {a : Parser α} {b : Parser β} {c : Parser γ}
    (ha : Nonexpanding a) (hb : Nonexpanding b) (hc : Nonexpanding c) :
    Nonexpanding (delimited a b c) := by
  intro i r x h
  simp only [delimited] at h
  split at h
  · cases h
  case h_2 i1 oa hma =>
    split at h
    · cases h
    case h_2 i2 ob hmb =>
      split at h
      · cases h
      case h_2 i3 oc hmc =>
        simp only [Option.some.injEq, Prod.mk.injEq] at h
        obtain ⟨hr, -⟩ := h
        subst hr
        exact Nat.le_trans (hc _ _ _ hmc) (Nat.le_trans (hb _ _ _ hmb) (ha _ _ _ hma))

theorem ws_nonexpanding {p : Parser α} (hp : Nonexpanding p) : Nonexpanding (ws p) :=
  delimited_nonexpanding space0_nonexpanding hp space0_nonexpanding

theorem alt2_nonexpanding {p q : Parser α} (hp : Nonexpanding p) (hq : Nonexpanding q) :
    Nonexpanding (alt2 p q) := by
  intro i r x h
  simp only [alt2] at h
  split at h
  case h_1 v hv =>
    cases h
    exact hp _ _ _ hv
  case h_2 => exact hq _ _ _ h

theorem alt2_strict {p q : Parser α} (hp : StrictConsuming p) (hq : StrictConsuming q) :
    StrictConsuming (alt2 p q) := by
  intro i r x h
  simp only [alt2] at h
  split at h
  case h_1 v hv =>
    cases h
    exact hp _ _ _ hv
  case h_2 => exact hq _ _ _ h

theorem pmap_nonexpanding {p : Parser α} {f : α → β} (hp : Nonexpanding p) :
    Nonexpanding (pmap p f) := by
  intro i r x h
  simp only [pmap] at h
  split at h
  · cases h
  case h_2 i1 o hm =>
    simp only [Option.some.injEq, Prod.mk.injEq] at h
    obtain ⟨hr, -⟩ := h
    subst hr
    exact hp _ _ _ hm

theorem map_res_nonexpanding {p : Parser α} {f : α → Option β} (hp : Nonexpanding p) :
    Nonexpanding (map_res p f) := by
  intro i r x h
  simp only [map_res] at h
  split at h
  · cases h
  case h_2 i1 o hm =>
    split at h
    · cases h
    · simp only [Option.some.injEq, Prod.mk.injEq] at h
      obtain ⟨hr, -⟩ := h
      subst hr
      exact hp _ _ _ hm

theorem tuple2_nonexpanding {p : Parser α} {q : Parser β}
    (hp : Nonexpanding p) (hq : Nonexpanding q) : Nonexpanding (tuple2 p q) := by
  intro i r x h
  simp only [tuple2] at h
  split at h
  · cases h
  case h_2 i1 oa hma =>
    split at h
    · cases h
    case h_2 i2 ob hmb =>
      simp only [Option.some.injEq, Prod.mk.injEq] at h
      obtain ⟨hr, -⟩ := h
      subst hr
      exact Nat.le_trans (hq _ _ _ hmb) (hp _ _ _ hma)

theorem digit1_nonexpanding : Nonexpanding digit1 := by
  intro i r x h
  simp only [digit1] at h
  split at h
  · cases h
  · simp only [Option.some.injEq, Prod.mk.injEq] at h
    obtain ⟨hr, -⟩ := h
    subst hr
    simp only [List.length_drop]
    omega

theorem sepLoop_nonexpanding {sep : Parser σ} {f : Parser α}
    (hs : Nonexpanding sep) (hf : Nonexpanding f) (fuel : Nat) :
    ∀ i acc r v, sepLoop sep f fuel i acc = some (r, v) → r.length ≤ i.length := by
  induction fuel with
  | zero =>
    intro i acc r v h
    simp [sepLoop] at h
  | succ n ih =>
    intro i acc r v h
    simp only [sepLoop] at h
    split at h
    · simp only [Option.some.injEq, Prod.mk.injEq] at h
      obtain ⟨hr, -⟩ := h
      subst hr
      exact Nat.le_refl _
    case h_2 i1 y hsep =>
      split at h
      · cases h
      · split at h
        · simp only [Option.some.injEq, Prod.mk.injEq] at h
          obtain ⟨hr, -⟩ := h
          subst hr
          exact Nat.le_refl _
        case h_2 i2 o hfm =>
          exact Nat.le_trans (ih _ _ _ _ h)
            (Nat.le_trans (hf _ _ _ hfm) (hs _ _ _ hsep))

theorem separated_list0_nonexpanding {sep : Parser σ} {f : Parser α}
    (hs : Nonexpanding sep) (hf : Nonexpanding f) :
    Nonexpanding (separated_list0 sep f) := by
  intro i r x h
  simp only [separated_list0] at h
  split at h
  · simp only [Option.some.injEq, Prod.mk.injEq] at h
    obtain ⟨hr, -⟩ := h
    subst hr
    exact Nat.le_refl _
  case h_2 i1 o hfm =>
    exact Nat.le_trans (sepLoop_nonexpanding hs hf _ _ _ _ _ h) (hf _ _ _ hfm)

theorem separated_list1_nonexpanding {sep : Parser σ} {f : Parser α}
    (hs : Nonexpanding sep) (hf : Nonexpanding f) :
    Nonexpanding (separated_list1 sep f) := by
  intro i r x h
  simp only [separated_list1] at h
  split at h
  · cases h
  case h_2 i1 o hfm =>
    exact Nat.le_trans (sepLoop_nonexpanding hs hf _ _ _ _ _ h) (hf _ _ _ hfm)

theorem gameTagParser_nonexpanding : Nonexpanding gameTagParser :=
  ws_nonexpanding (tag_nonexpanding _)

theorem gameIdParser_nonexpanding : Nonexpanding gameIdParser :=
  map_res_nonexpanding digit1_nonexpanding

theorem colonParser_nonexpanding : Nonexpanding colonParser :=
  tag_nonexpanding _

theorem colorParser_nonexpanding : Nonexpanding colorParser :=
  alt2_nonexpanding (tag_nonexpanding _)
    (alt2_nonexpanding (tag_nonexpanding _) (tag_nonexpanding _))

theorem colorNumberParser_nonexpanding : Nonexpanding colorNumberParser :=
  tuple2_nonexpanding (ws_nonexpanding gameIdParser_nonexpanding)
    (ws_nonexpanding colorParser_nonexpanding)

theorem get_color_set_nonexpanding : Nonexpanding get_color_set :=
  separated_list0_nonexpanding (ws_nonexpanding (tag_nonexpanding _))
    (pmap_nonexpanding
      (separated_list1_nonexpanding (ws_nonexpanding (tag_nonexpanding _))
        colorNumberParser_nonexpanding))

theorem gameParser_nonexpanding : Nonexpanding gameParser :=
  pmap_nonexpanding
    (tuple2_nonexpanding (ws_nonexpanding gameTagParser_nonexpanding)
      (tuple2_nonexpanding (ws_nonexpanding gameIdParser_nonexpanding)
        (tuple2_nonexpanding (ws_nonexpanding colonParser_nonexpanding)
          get_color_set_nonexpanding)))

theorem newlineParser_strict : StrictConsuming newlineParser :=
  alt2_strict tag_strict tag_strict

theorem sepLoop_isSome {sep : Parser σ} {f : Parser α}
    (hs : StrictConsuming sep) (hf : Nonexpanding f) (fuel : Nat) :
    ∀ i acc, i.length < fuel → ∃ r, sepLoop sep f fuel i acc = some r := by
  induction fuel with
  | zero =>
    intro i acc h
    exact absurd h (Nat.not_lt_zero _)
  | succ n ih =>
    intro i acc h
    simp only [sepLoop]
    cases hsep : sep i with
    | none => exact ⟨(i, acc), rfl⟩
    | some w =>
      obtain ⟨i1, y⟩ := w
      have hlt : i1.length < i.length := hs _ _ _ hsep
      dsimp only
      rw [if_neg (Nat.ne_of_lt hlt)]
      cases hfm : f i1 with
      | none => exact ⟨(i, acc), rfl⟩
      | some w2 =>
        obtain ⟨i2, o⟩ := w2
        exact ih i2 (acc ++ [o])
          (Nat.lt_of_le_of_lt (hf _ _ _ hfm) (Nat.lt_of_lt_of_le hlt (Nat.le_of_lt_succ h)))

theorem games_sep0_isSome (input : List Char) :
    ∃ r, separated_list0 newlineParser gameParser input = some r := by
  unfold separated_list0
  cases hg : gameParser input with
  | none => exact ⟨(input, []), rfl⟩
  | some w =>
    obtain ⟨i1, g⟩ := w
    dsimp only
    exact sepLoop_isSome newlineParser_strict gameParser_nonexpanding
      (i1.length + 1) i1 [g] (Nat.lt_succ_self _)

theorem Rgb.le_eq_rgbWithin (a b : Rgb) : Rgb.le a b = rgbWithin a b := by
  simp only [Rgb.le, Rgb.partial_cmp, rgbWithin]
  split_ifs <;> simp_all

theorem foldl_add_mod (M : Nat) :
    ∀ (l : List Nat) (a : Nat), a + l.sum < M →
      l.foldl (fun x y => (x + y) % M) a = a + l.sum := by
  intro l
  induction l with
  | nil => intro a _; simp
  | cons b l ih =>
    intro a h
    simp only [List.sum_cons] at h
    simp only [List.foldl_cons, List.sum_cons]
    rw [Nat.mod_eq_of_lt (by omega), ih (a + b) (by omega)]
    omega

theorem foldl_max_eq (l : List Nat) : ∀ a : Nat, l.foldl max a = max a (l.foldl max 0) := by
  induction l with
  | nil => intro a; simp
  | cons b l ih =>
    intro a
    simp only [List.foldl_cons]
    rw [ih (max a b), ih (max 0 b)]
    simp only [Nat.zero_max]
    omega

theorem maxFold_gen (l : List Rgb) :
    ∀ t : Nat × Nat × Nat,
      l.foldl (fun t rgb => (max t.1 rgb.red, max t.2.1 rgb.green, max t.2.2 rgb.blue)) t =
        (max t.1 ((l.map Rgb.red).foldl max 0),
          max t.2.1 ((l.map Rgb.green).foldl max 0),
          max t.2.2 ((l.map Rgb.blue).foldl max 0)) := by
  induction l with
  | nil => intro t; simp
  | cons r l ih =>
    intro t
    simp only [List.foldl_cons, List.map_cons]
    rw [ih]
    rw [foldl_max_eq _ (max 0 r.red), foldl_max_eq _ (max 0 r.green),
      foldl_max_eq _ (max 0 r.blue)]
    simp only [Nat.zero_max, Prod.mk.injEq]
    refine ⟨?_, ?_, ?_⟩ <;> dsimp only <;> omega

theorem maxFold_eq (g : Game) :
    maxFold g =
      ((g.rounds.map Rgb.red).foldl max 0, (g.rounds.map Rgb.green).foldl max 0,
        (g.rounds.map Rgb.blue).foldl max 0) := by
  unfold maxFold
  rw [maxFold_gen]
  simp [Nat.zero_max]

theorem foldPair_comm (acc : Rgb) (p q : Nat × List Char) :
    foldPair (foldPair acc p) q = foldPair (foldPair acc q) p := by
  obtain ⟨a, pc⟩ := p
  obtain ⟨b, qc⟩ := q
  simp only [foldPair]
  split_ifs <;>
    simp_all [Rgb.mk.injEq, Nat.mod_add_mod, Nat.add_right_comm]

theorem foldl_foldPair_perm {l1 l2 : List (Nat × List Char)} (h : l1.Perm l2) :
    ∀ acc : Rgb, l1.foldl foldPair acc = l2.foldl foldPair acc := by
  induction h with
  | nil => intro acc; rfl
  | cons x _ ih =>
    intro acc
    simp only [List.foldl_cons]
    exact ih _
  | swap x y l =>
    intro acc
    simp only [List.foldl_cons, foldPair_comm]
  | trans _ _ ih1 ih2 =>
    intro acc
    rw [ih1, ih2]

theorem takeWhile_isDigit_self {l : List Char} (h : ∀ c ∈ l, c.isDigit) :
    l.takeWhile Char.isDigit = l := by
  induction l with
  | nil => rfl
  | cons c cs ih =>
    simp only [List.takeWhile_cons]
    rw [if_pos (h c (List.mem_cons_self c cs))]
    rw [ih fun d hd => h d (List.mem_cons_of_mem c hd)]

/-- C1, counterexample: in `"Game 1: 4 greenish"` the pair has the color name
`greenish`, which is outside {red, green, blue}, yet the parse succeeds with
the count 4 credited to green (4 is not dropped from the aggregate), because
`tag("green")` matches the prefix of `greenish`. -/
theorem unknown_color_count_not_dropped :
    gamesParser "Game 1: 4 greenish".toList =
        Except.ok [⟨1, [⟨0, 4, 0⟩]⟩] ∧
      ¬ "greenish".toList ∈ ["red".toList, "green".toList, "blue".toList] :=
  ⟨rfl, by decide⟩

/-- C1, amended: a color name outside {red, green, blue} never makes the
parse fail, but the leniency is not the claimed per-pair drop: when the color
token does not start with any of the three literals, the offending pair and
everything after it in the record is dropped (leaving the pairs before it);
when it merely extends a literal (`greenish`), its count is credited to that
color. -/
theorem unknown_color_leniency_amended :
    gamesParser "Game 1: 3 yellow, 4 red".toList = Except.ok [⟨1, []⟩] ∧
      gamesParser "Game 1: 3 blue, 4 yellow".toList =
        Except.ok [⟨1, [⟨0, 0, 3⟩]⟩] ∧
      gamesParser "Game 1: 4 greenish".toList = Except.ok [⟨1, [⟨0, 4, 0⟩]⟩] :=
  ⟨rfl, rfl, rfl⟩

/-- C2, counterexample: the input `"Game 1: 3 blue\nGarbage"` has an
unparseable second record, yet `gamesParser` returns `Ok` with the partial
record list `[Game 1]` instead of any error. -/
theorem partial_record_list_returned :
    gamesParser ("Game 1: 3 blue\nGarbage").toList =
      Except.ok [⟨1, [⟨0, 0, 3⟩]⟩] := rfl

/-- C2, amended: parsing is never all-or-nothing failing; for every input the
record-list parse succeeds with the records accumulated up to the first
failure and `gamesParser` discards whatever input is left over, returning
`Ok` with that (possibly partial) record list. -/
theorem gamesParser_discards_trailing (input : List Char) :
    ∃ rest games,
      separated_list0 newlineParser gameParser input = some (rest, games) ∧
        gamesParser input = Except.ok games := by
  obtain ⟨⟨rest, gs⟩, hr⟩ := games_sep0_isSome input
  refine ⟨rest, gs, hr, ?_⟩
  unfold gamesParser
  rw [hr]

/-- C3, counterexample: on the input with the `:` after the game id missing,
`gamesParser` returns `Ok` (with no records), not an `UnexpectedToken`
error. -/
theorem missing_colon_no_error :
    gamesParser "Game 1 3 blue, 4 red".toList = Except.ok [] := rfl

/-- C3, amended: an input whose header lacks the `:` after the game id makes
the record parser fail, so the top-level parse succeeds with an empty record
list (the whole input is discarded as trailing garbage); no error is
surfaced. -/
theorem missing_colon_empty_records :
    gamesParser "Game 1 3 blue, 4 red".toList = Except.ok [] ∧
      gamesParser "Game 1".toList = Except.ok [] :=
  ⟨rfl, rfl⟩

/-- C4: for every input string `gamesParser` returns `Ok` with a (possibly
empty) list of games; its error branch is never taken, because
`separated_list0` turns an element failure into success with the records
parsed so far and the `Ok((_, games))` arm discards unconsumed input. -/
theorem gamesParser_never_errs (input : List Char) :
    ∃ games, gamesParser input = Except.ok games := by
  obtain ⟨⟨rest, gs⟩, hr⟩ := games_sep0_isSome input
  refine ⟨gs, ?_⟩
  unfold gamesParser
  rw [hr]

/-- C5, counterexample: the ten-digit sequence `4294967296` (equal to
`2 ^ 32`) makes `gameIdParser` fail, because `map_res` applies
`str::parse::<u32>` which rejects values outside `u32` range; so not every
digit sequence parses. -/
theorem game_id_overflow_fails :
    gameIdParser "4294967296".toList = none := rfl

/-- C5, amended: the id is parsed by `digit1` followed by conversion to
`u32`: a nonempty digit sequence parses successfully to its value, with no
range validation other than the implicit `u32` bound, and fails exactly when
the value is `2 ^ 32` or more. -/
theorem gameIdParser_u32_range (ds : List Char) (hne : ds ≠ [])
    (hd : ∀ c ∈ ds, c.isDigit) :
    gameIdParser ds =
      if digitsVal ds < 2 ^ 32 then some ([], digitsVal ds) else none := by
  unfold gameIdParser map_res digit1
  rw [takeWhile_isDigit_self hd]
  cases ds with
  | nil => exact absurd rfl hne
  | cons c cs =>
    dsimp only
    rw [List.drop_length]
    unfold u32_from_digits
    split_ifs <;> rfl

/-- Witness for C5: the digit sequence `12` parses to the id 12. -/
theorem gameIdParser_u32_range_witness :
    gameIdParser ['1', '2'] = some ([], 12) := by
  rw [gameIdParser_u32_range ['1', '2'] (by decide) (by decide)]
  rfl

/-- C6: Scenario 1 input parses to exactly one record with id 1 and rounds
`[(4,0,3), (1,2,6), (0,2,0)]` in (red, green, blue) order. -/
theorem scenario1_parse :
    gamesParser "Game 1: 3 blue, 4 red; 1 red, 2 green, 6 blue; 2 green".toList =
      Except.ok [⟨1, [⟨4, 0, 3⟩, ⟨1, 2, 6⟩, ⟨0, 2, 0⟩]⟩] := rfl

/-- C7: as long as the result fits in `u32`, `part1` returns the sum of ids
of exactly those records all of whose rounds are component-wise ≤ the ceiling
`(12, 13, 14)` (the spec-side `feasibilitySum`). -/
theorem part1_eq_feasibilitySum (l : List Game)
    (h : feasibilitySum max_cubes l < 2 ^ 32) :
    part1 l = feasibilitySum max_cubes l := by
  have hfun : gameFeasible max_cubes =
      fun g => g.rounds.all fun r => rgbWithin r max_cubes := by
    funext g
    simp only [gameFeasible, Rgb.le_eq_rgbWithin]
  unfold part1
  rw [hfun]
  unfold feasibilitySum at h ⊢
  rw [foldl_add_mod (2 ^ 32) _ 0 (by omega)]
  omega

/-- Witness for C7: on the five-record reference sample with ceiling
`(12, 13, 14)`, `part1` returns 8. -/
theorem part1_sample_eq_eight : part1 sampleGames = 8 := by
  rw [part1_eq_feasibilitySum sampleGames (by decide)]
  rfl

/-- C8: as long as no per-record product and no partial sum overflows `u64`,
`part2` returns, for each record, the product of the component-wise maxima of
red, green and blue across its rounds (starting from `(0, 0, 0)` when there
are no rounds), summed over all records (the spec-side
`boundingProductSum`). -/
theorem part2_eq_boundingProductSum (l : List Game)
    (hg : ∀ g ∈ l, gamePower g < 2 ^ 64)
    (hs : boundingProductSum l < 2 ^ 64) :
    part2 l = boundingProductSum l := by
  have hmap : l.map (fun g =>
        let m := maxFold g
        m.1 * m.2.1 % 2 ^ 64 * m.2.2 % 2 ^ 64) =
      l.map gamePower := by
    apply List.map_congr_left
    intro g hgm
    dsimp only
    rw [maxFold_eq]
    dsimp only
    rw [Nat.mod_mul_mod]
    exact Nat.mod_eq_of_lt (hg g hgm)
  unfold part2
  rw [hmap]
  unfold boundingProductSum at hs ⊢
  rw [foldl_add_mod (2 ^ 64) _ 0 (by omega)]
  omega

/-- Witness for C8: on the five-record reference sample, `part2` returns
2286. -/
theorem part2_sample_eq_2286 : part2 sampleGames = 2286 := by
  rw [part2_eq_boundingProductSum sampleGames (by decide) (by decide)]
  rfl

/-- C9: a record with an empty round list satisfies the feasibility filter
for every ceiling, and `feasibilitySum` counts its id regardless of the
ceiling (the "all rounds within ceiling" condition holds vacuously). -/
theorem empty_rounds_always_feasible (c : Rgb) (g : Game) (l : List Game)
    (h : g.rounds = []) :
    gameFeasible c g = true ∧
      feasibilitySum c (g :: l) = g.id + feasibilitySum c l := by
  constructor
  · simp [gameFeasible, h]
  · simp [feasibilitySum, List.filter_cons, h]

/-- Witness for C9: a record with id 7 and no rounds is counted even under
the all-zero ceiling. -/
theorem empty_rounds_always_feasible_witness :
    gameFeasible ⟨0, 0, 0⟩ ⟨7, []⟩ = true ∧
      feasibilitySum ⟨0, 0, 0⟩ [⟨7, []⟩] = 7 + feasibilitySum ⟨0, 0, 0⟩ [] :=
  empty_rounds_always_feasible ⟨0, 0, 0⟩ ⟨7, []⟩ [] rfl

/-- C10: the fold that builds a round aggregate is order-independent:
folding any permutation of the (count, color) pair list yields the same
aggregate `Rgb`. -/
theorem foldPairs_perm_invariant (l1 l2 : List (Nat × List Char))
    (h : l1.Perm l2) : foldPairs l1 = foldPairs l2 :=
  foldl_foldPair_perm h Rgb.default

/-- Witness for C10: swapping two pairs of a round leaves the aggregate
unchanged. -/
theorem foldPairs_perm_invariant_witness :
    foldPairs [(2, "blue".toList), (1, "red".toList)] =
      foldPairs [(1, "red".toList), (2, "blue".toList)] :=
  foldPairs_perm_invariant [(2, "blue".toList), (1, "red".toList)]
    [(1, "red".toList), (2, "blue".toList)]
    (List.Perm.swap (1, "red".toList) (2, "blue".toList) [])

end Day2
